import Mathlib

/-!
Verification of the fragment-composition and script-synthesis core of
`redis-lua` (`src/redis-lua/src/script.rs`), shallowly embedded in Lean.

The embedding covers:
* `Info` — the generated script information record (`script`, `body`, `args`);
* `gen_script` — the script synthesizer, with its two branches (single
  fragment verbatim; otherwise the joined-script loop with the running
  1-based argument counter).  A Rust panic is modelled as `none`: the
  `.expect` in the single-script branch, and the `info.len() - 1` usize
  subtraction, which underflows (debug-build panic) on the empty slice;
* the `Script` trait values reachable from the crate's code: the `()` impl,
  `ScriptJoin`, and the generated-chain leaf `Chain2` from the crate's own
  test family (`Chain0 → Chain1 → Chain2`, binding four argument values),
  with their `apply` (argument flattening) and `info` (fragment collection)
  methods as explicit accumulator-passing functions;
* `invoke` / `invoke_async` up to the transport boundary: the
  (script, flattened argument list) pair each hands to the external client.

Spec-side definitions (`sumBefore`, `bindStmt`, `fragInit`, `fragPiece`,
`joinedSpec`, `argGroups`) render the specified closed form of the emitted
text — the binding for the `j`-th argument of fragment `i` referencing
flattened 1-based position `n1+…+n(i-1)+j` — and the per-fragment grouping
of the flattened argument list, to be compared with the source embedding.
-/

namespace RedisLua

/-- Generated script information (struct `Info`): the entire script including
argument initialization, the script body excluding it, and the ordered list
of argument names. -/
structure Info where
  script : String
  body : String
  args : List String
  deriving DecidableEq

/-- The inner `for arg in info.args` loop of `gen_script`: entering with the
running counter at `argIndex`, it increments the counter and appends
`local <arg> = ARGV[<counter>] ` for each argument name in order. -/
def initFor : List String → Nat → String
  | [], _ => ""
  | a :: rest, argIndex =>
    "local " ++ a ++ " = ARGV[" ++ toString (argIndex + 1) ++ "] " ++ initFor rest (argIndex + 1)

/-- The outer `for (index, info) in info.iter().enumerate()` loop of
`gen_script`: appends, for each fragment, the piece
`<prefix>(function() <init> <body> end)();\n`, where `<prefix>` is
`return ` exactly when `index == last`, and threads the running argument
counter across fragments. -/
def genLoop : List Info → Nat → Nat → Nat → String → String
  | [], _, _, _, script => script
  | f :: rest, index, lastIdx, argIndex, script =>
    genLoop rest (index + 1) lastIdx (argIndex + f.args.length)
      (script ++
        ((if index = lastIdx then "return " else "") ++
          "(function() " ++ initFor f.args argIndex ++ " " ++ f.body ++ " end)();\n"))

/-- `gen_script` (src/redis-lua/src/script.rs:86-109).  With exactly one
fragment the output is that fragment's `script` verbatim; otherwise the
joined script is generated by `genLoop` with `last = info.len() - 1`.
`none` models a panic: the `.expect` on `info.get(0)`, and the usize
subtraction `info.len() - 1`, which underflows on the empty slice (a panic
in debug builds). -/
def gen_script (info : List Info) : Option String :=
  if info.length = 1 then
    (info[0]?).map Info.script
  else if info.length = 0 then
    none
  else
    some (genLoop info 0 (info.length - 1) 0 "")

/-- Values of the `Script` trait occurring in the crate: the `()` impl
(`unit`), `ScriptJoin` (`join`), and the generated-chain leaf `Chain2`
(`chain2`), whose fields are, in struct order, the inner script, the
fragment `Info`, and the four bound argument values `a1, a3, a2, a4`. -/
inductive SVal (α : Type u) where
  | unit : SVal α
  | join : SVal α → SVal α → SVal α
  | chain2 : SVal α → Info → α → α → α → α → SVal α

/-- `Script::apply` as accumulator passing over the invocation's argument
list: `()` appends nothing; `ScriptJoin` applies its left part then its
right part; `Chain2` applies its inner script then appends
`a1, a2, a3, a4` in that order (`invoke.arg` calls). -/
def SVal.apply : SVal α → List α → List α
  | .unit, acc => acc
  | .join s t, acc => t.apply (s.apply acc)
  | .chain2 inner _ a1 a3 a2 a4, acc => inner.apply acc ++ [a1, a2, a3, a4]

/-- `Script::info` as accumulator passing over the collected `Info` list:
`()` pushes nothing; `ScriptJoin` collects its left part then its right
part; `Chain2` collects its inner script then pushes its own `Info`. -/
def SVal.infos : SVal α → List Info → List Info
  | .unit, acc => acc
  | .join s t, acc => t.infos (s.infos acc)
  | .chain2 inner f _ _ _ _, acc => inner.infos acc ++ [f]

/-- The fragment sequence collected by `invoke`:
`let mut info = vec![]; self.info(&mut info)`. -/
def infoList (s : SVal α) : List Info := s.infos []

/-- The flattened argument list built by `apply` on a fresh invocation. -/
def applyList (s : SVal α) : List α := s.apply []

/-- The (synthesized script, flattened argument list) pair that the blocking
`Script::invoke` hands to the external client via
`script.prepare_invoke()` / `self.apply(&mut invoke)` / `invoke.invoke(con)`. -/
def invokePrep (s : SVal α) : Option String × List α :=
  (gen_script (s.infos []), s.apply [])

/-- The (synthesized script, flattened argument list) pair that the suspending
`Script::invoke_async` hands to the external client via
`script.prepare_invoke()` / `self.apply(&mut invoke)` /
`invoke.invoke_async(con)`. -/
def invokeAsyncPrep (s : SVal α) : Option String × List α :=
  (gen_script (s.infos []), s.apply [])

/-- `Chain0`: the clonable partially bound builder root, holding the fragment
`Info`, the inner script, and the two construction-time bound values
`a1`, `a3`. -/
structure Chain0 (α : Type u) where
  info : Info
  inner : SVal α
  a1 : α
  a3 : α

/-- `Chain1`: `Chain0` after binding `a2` through its method `a`. -/
structure Chain1 (α : Type u) where
  info : Info
  inner : SVal α
  a1 : α
  a3 : α
  a2 : α

/-- `Chain0::a`: bind the next argument value `a2`, carrying everything else
forward. -/
def Chain0.a (c : Chain0 α) (v : α) : Chain1 α :=
  ⟨c.info, c.inner, c.a1, c.a3, v⟩

/-- `Chain1::b`: bind the last argument value `a4`, producing the fully bound
`Chain2` execution unit. -/
def Chain1.b (c : Chain1 α) (v : α) : SVal α :=
  .chain2 c.inner c.info c.a1 c.a3 c.a2 v

/-- Well-formedness enforced by the type-state builder: every `Chain2` leaf
binds exactly as many values (four) as its `Info` declares argument names. -/
def SVal.wf : SVal α → Bool
  | .unit => true
  | .join s t => s.wf && t.wf
  | .chain2 inner f _ _ _ _ => inner.wf && (f.args.length == 4)

/-- Spec-side: concatenation of a list of strings in order. -/
def concatAll : List String → String
  | [] => ""
  | s :: rest => s ++ concatAll rest

/-- Spec-side: `n1 + … + n(i-1)`, the sum of the argument counts of the
fragments strictly before index `i`. -/
def sumBefore (infos : List Info) (i : Nat) : Nat :=
  ((infos.take i).map (fun f => f.args.length)).sum

/-- Spec-side: the local-binding statement assigning `name` from the
flattened argument array at 1-based position `pos`. -/
def bindStmt (name : String) (pos : Nat) : String :=
  "local " ++ name ++ " = ARGV[" ++ toString pos ++ "] "

/-- Spec-side: the `j`-th argument name of a fragment (0-based `j`). -/
def argNameAt (args : List String) (j : Nat) : String :=
  match args[j]? with
  | none => ""
  | some a => a

/-- Spec-side: the argument-initialization prologue of fragment `i`, binding
its `j`-th name (1-based `j+1`) to flattened position
`n1+…+n(i-1) + (j+1)`. -/
def fragInit (infos : List Info) (i : Nat) : String :=
  match infos[i]? with
  | none => ""
  | some f =>
    concatAll ((List.range f.args.length).map
      (fun j => bindStmt (argNameAt f.args j) (sumBefore infos i + (j + 1))))

/-- Spec-side: the wrapped scope emitted for fragment `i`: its bindings and
body inside an immediately-evaluated anonymous function, terminated by
`();\n`, and prefixed with `return ` exactly on the last fragment. -/
def fragPiece (infos : List Info) (i : Nat) : String :=
  match infos[i]? with
  | none => ""
  | some f =>
    (if i = infos.length - 1 then "return " else "") ++
      "(function() " ++ fragInit infos i ++ " " ++ f.body ++ " end)();\n"

/-- Spec-side: the joined script as the concatenation of the wrapped scopes
of all fragments in order. -/
def joinedSpec (infos : List Info) : String :=
  concatAll ((List.range infos.length).map (fragPiece infos))

/-- Spec-side: the flattened argument list grouped per fragment, in the order
`apply` traverses the composite (inner/left first, then self/right). -/
def argGroups : SVal α → List (List α)
  | .unit => []
  | .join s t => argGroups s ++ argGroups t
  | .chain2 inner _ a1 a3 a2 a4 => argGroups inner ++ [[a1, a2, a3, a4]]

/-- Sample fragment used to instantiate hypotheses at a concrete input. -/
def infoA : Info :=
  { script := "local p = ARGV[1] local q = ARGV[2] local r = ARGV[3] local s = ARGV[4] return p - q - r + s"
    body := "return p - q - r + s"
    args := ["p", "q", "r", "s"] }

/-- Second sample fragment used to instantiate hypotheses at a concrete
input. -/
def infoB : Info :=
  { script := "local u = ARGV[1] local v = ARGV[2] local w = ARGV[3] local z = ARGV[4] return u + v + w + z"
    body := "return u + v + w + z"
    args := ["u", "v", "w", "z"] }

/-- Sample two-fragment execution unit with all eight argument values bound. -/
def sampleUnit : SVal Nat :=
  .join (.chain2 .unit infoA 1 3 2 4) (.chain2 .unit infoB 5 7 6 8)

/-- Closed form of the argument-initialization loop: the binding for the
`j`-th name (0-based) entered with the counter at `base` references the
flattened 1-based position `base + (j + 1)`. -/
theorem initFor_closed (args : List String) : ∀ base : Nat,
    initFor args base = concatAll ((List.range args.length).map
      (fun j => bindStmt (argNameAt args j) (base + (j + 1)))) := by
  induction args with
  | nil => intro _; rfl
  | cons a rest ih =>
    intro base
    have hfun : ((fun j => bindStmt (argNameAt (a :: rest) j) (base + (j + 1))) ∘
        (fun j => j + 1)) = fun j => bindStmt (argNameAt rest j) (base + 1 + (j + 1)) := by
      funext j
      simp only [Function.comp]
      have h1 : argNameAt (a :: rest) (j + 1) = argNameAt rest j := by
        simp [argNameAt]
      rw [h1]
      congr 1
      omega
    simp only [initFor, List.length_cons, List.range_succ_eq_map, List.map_cons,
      List.map_map, concatAll]
    rw [ih (base + 1), hfun]
    have h0 : argNameAt (a :: rest) 0 = a := by simp [argNameAt]
    simp only [bindStmt, h0, Nat.zero_add]

/-- The outer loop of `gen_script` distributes over its string accumulator. -/
theorem genLoop_acc (infos : List Info) : ∀ (i lastIdx argIdx : Nat) (acc : String),
    genLoop infos i lastIdx argIdx acc = acc ++ genLoop infos i lastIdx argIdx "" := by
  induction infos with
  | nil => intro i l g acc; simp [genLoop, String.append_empty]
  | cons f rest ih =>
    intro i l g acc
    simp only [genLoop, String.empty_append]
    generalize ((if i = l then "return " else "") ++
      "(function() " ++ initFor f.args g ++ " " ++ f.body ++ " end)();\n" : String) = pc
    rw [ih (i + 1) l (g + f.args.length) (acc ++ pc),
      ih (i + 1) l (g + f.args.length) pc, String.append_assoc]

/-- Unfolding lemma for `fragInit` once the fragment at index `i` is known. -/
theorem fragInit_eq (infos : List Info) (i : Nat) (f : Info) (h : infos[i]? = some f) :
    fragInit infos i = concatAll ((List.range f.args.length).map
      (fun j => bindStmt (argNameAt f.args j) (sumBefore infos i + (j + 1)))) := by
  unfold fragInit
  rw [h]

/-- Unfolding lemma for `fragPiece` once the fragment at index `i` is known. -/
theorem fragPiece_eq (infos : List Info) (i : Nat) (f : Info) (h : infos[i]? = some f) :
    fragPiece infos i = (if i = infos.length - 1 then "return " else "") ++
      "(function() " ++ fragInit infos i ++ " " ++ f.body ++ " end)();\n" := by
  unfold fragPiece
  rw [h]

/-- The joined-script loop, started after the prefix `pre` with the running
counter equal to the argument count of `pre`, emits exactly the specified
wrapped scopes of the remaining fragments. -/
theorem genLoop_spec (rest : List Info) : ∀ (pre infos : List Info), infos = pre ++ rest →
    genLoop rest pre.length (infos.length - 1) (sumBefore infos pre.length) "" =
      concatAll ((List.range rest.length).map (fun j => fragPiece infos (pre.length + j))) := by
  induction rest with
  | nil => intro pre infos _; rfl
  | cons f rest2 ih =>
    intro pre infos h
    have hget : infos[pre.length]? = some f := by
      subst h
      rw [List.getElem?_append_right (Nat.le_refl pre.length)]
      simp
    have ht1 : infos.take pre.length = pre := by
      subst h; exact List.take_left pre (f :: rest2)
    have ht2 : infos.take (pre.length + 1) = pre ++ [f] := by
      subst h
      rw [List.take_append_eq_append_take]
      have hx : pre.take (pre.length + 1) = pre := List.take_of_length_le (by omega)
      have hy : pre.length + 1 - pre.length = 1 := by omega
      rw [hx, hy]
      rfl
    have hsum : sumBefore infos (pre.length + 1) = sumBefore infos pre.length + f.args.length := by
      unfold sumBefore
      rw [ht1, ht2, List.map_append, List.sum_append]
      simp
    have hfi : fragInit infos pre.length = initFor f.args (sumBefore infos pre.length) := by
      rw [fragInit_eq infos pre.length f hget, initFor_closed]
    have hpiece : fragPiece infos pre.length = (if pre.length = infos.length - 1
        then "return " else "") ++
        "(function() " ++ initFor f.args (sumBefore infos pre.length) ++ " " ++
        f.body ++ " end)();\n" := by
      rw [fragPiece_eq infos pre.length f hget, hfi]
    have hlen : (pre ++ [f]).length = pre.length + 1 := by simp
    have ihx := ih (pre ++ [f]) infos (by rw [h, List.append_assoc]; rfl)
    rw [hlen] at ihx
    have hfun : ((fun j => fragPiece infos (pre.length + j)) ∘ (fun j => j + 1)) =
        fun j => fragPiece infos (pre.length + 1 + j) := by
      funext j
      simp only [Function.comp]
      congr 1
      omega
    simp only [genLoop, String.empty_append]
    rw [genLoop_acc rest2 (pre.length + 1) (infos.length - 1)
      (sumBefore infos pre.length + f.args.length), ← hsum, ihx]
    simp only [List.length_cons, List.range_succ_eq_map, List.map_cons, List.map_map,
      concatAll, hfun, Nat.add_zero]
    rw [hpiece]

/-- With two or more fragments, `gen_script` produces exactly the specified
joined script. -/
theorem gen_script_joined (infos : List Info) (h : 2 ≤ infos.length) :
    gen_script infos = some (joinedSpec infos) := by
  have h1 : ¬ infos.length = 1 := by omega
  have h0 : ¬ infos.length = 0 := by omega
  unfold gen_script
  rw [if_neg h1, if_neg h0]
  congr 1
  have hs0 : sumBefore infos 0 = 0 := by simp [sumBefore]
  have hx := genLoop_spec infos [] infos (by simp)
  simp only [List.length_nil, hs0, Nat.zero_add] at hx
  rw [hx]
  rfl

/-- `Script::info` for any composite distributes over its accumulator. -/
theorem infos_acc (s : SVal α) : ∀ acc : List Info, s.infos acc = acc ++ s.infos [] := by
  induction s with
  | unit => intro acc; simp [SVal.infos]
  | join a b iha ihb =>
    intro acc
    simp only [SVal.infos]
    rw [ihb (a.infos acc), iha acc, ihb (a.infos []), List.append_assoc]
  | chain2 inner f a1 a3 a2 a4 ih =>
    intro acc
    simp only [SVal.infos]
    rw [ih acc, List.append_assoc]

/-- `Script::apply` for any composite distributes over its accumulator. -/
theorem apply_acc (s : SVal α) : ∀ acc : List α, s.apply acc = acc ++ s.apply [] := by
  induction s with
  | unit => intro acc; simp [SVal.apply]
  | join a b iha ihb =>
    intro acc
    simp only [SVal.apply]
    rw [ihb (a.apply acc), iha acc, ihb (a.apply []), List.append_assoc]
  | chain2 inner f a1 a3 a2 a4 ih =>
    intro acc
    simp only [SVal.apply]
    rw [ih acc, List.append_assoc]

/-- Joining concatenates the collected fragment sequences. -/
theorem infoList_join_eq (a b : SVal α) :
    infoList (SVal.join a b) = infoList a ++ infoList b := by
  unfold infoList
  simp only [SVal.infos]
  rw [infos_acc b (a.infos [])]

/-- Joining concatenates the flattened argument sequences. -/
theorem applyList_join_eq (a b : SVal α) :
    applyList (SVal.join a b) = applyList a ++ applyList b := by
  unfold applyList
  simp only [SVal.apply]
  rw [apply_acc b (a.apply [])]

/-- A chain leaf collects its inner fragments followed by its own. -/
theorem infoList_chain2_eq (inner : SVal α) (f : Info) (a1 a3 a2 a4 : α) :
    infoList (SVal.chain2 inner f a1 a3 a2 a4) = infoList inner ++ [f] := rfl

/-- A chain leaf appends its inner arguments followed by its own four. -/
theorem applyList_chain2_eq (inner : SVal α) (f : Info) (a1 a3 a2 a4 : α) :
    applyList (SVal.chain2 inner f a1 a3 a2 a4) = applyList inner ++ [a1, a2, a3, a4] := rfl

/-- Well-formedness of a join gives well-formedness of both parts. -/
theorem wf_join (a b : SVal α) (h : (SVal.join a b).wf = true) :
    a.wf = true ∧ b.wf = true := by
  simpa [SVal.wf, Bool.and_eq_true] using h

/-- Well-formedness of a chain leaf gives well-formedness of its inner script
and the four-argument count of its fragment. -/
theorem wf_chain2 (inner : SVal α) (f : Info) (a1 a3 a2 a4 : α)
    (h : (SVal.chain2 inner f a1 a3 a2 a4).wf = true) :
    inner.wf = true ∧ f.args.length = 4 := by
  simpa [SVal.wf, Bool.and_eq_true] using h

/-- On well-formed units the flattened argument list has exactly the total
declared argument count. -/
theorem applyList_length_eq (s : SVal α) : s.wf = true →
    (applyList s).length = ((infoList s).map (fun f => f.args.length)).sum := by
  induction s with
  | unit => intro _; rfl
  | join a b iha ihb =>
    intro h
    obtain ⟨ha, hb⟩ := wf_join a b h
    rw [applyList_join_eq, infoList_join_eq, List.length_append, List.map_append,
      List.sum_append, iha ha, ihb hb]
  | chain2 inner f a1 a3 a2 a4 ih =>
    intro h
    obtain ⟨hi, hf⟩ := wf_chain2 inner f a1 a3 a2 a4 h
    rw [applyList_chain2_eq, infoList_chain2_eq, List.length_append, List.map_append,
      List.sum_append, ih hi]
    simp [hf]

/-- The flattened argument list is the in-order flattening of the
per-fragment argument groups. -/
theorem applyList_flatten_groups (s : SVal α) : applyList s = (argGroups s).flatten := by
  induction s with
  | unit => rfl
  | join a b iha ihb =>
    simp only [argGroups]
    rw [applyList_join_eq, List.flatten_append, iha, ihb]
  | chain2 inner f a1 a3 a2 a4 ih =>
    simp only [argGroups]
    rw [applyList_chain2_eq, List.flatten_append, ih]
    simp

/-- On well-formed units the argument groups align one-for-one with the
collected fragments, each group as long as its fragment's name list. -/
theorem groups_align (s : SVal α) : s.wf = true →
    List.Forall₂ (fun g f => g.length = f.args.length) (argGroups s) (infoList s) := by
  induction s with
  | unit => intro _; exact List.Forall₂.nil
  | join a b iha ihb =>
    intro h
    obtain ⟨ha, hb⟩ := wf_join a b h
    rw [infoList_join_eq]
    simp only [argGroups]
    exact List.rel_append (iha ha) (ihb hb)
  | chain2 inner f a1 a3 a2 a4 ih =>
    intro h
    obtain ⟨hi, hf⟩ := wf_chain2 inner f a1 a3 a2 a4 h
    rw [infoList_chain2_eq]
    simp only [argGroups]
    refine List.rel_append (ih hi) ?_
    exact List.Forall₂.cons (by simp [hf]) List.Forall₂.nil

/-- A string starting with the wrapper opener `(function() ` does not start
with the return directive `return `. -/
theorem not_return_of_paren (q : String) :
    ¬ ("return ".data <+: ("(function() " ++ q).data) := by
  intro h
  have e2 : ("(function() " ++ q).data = '(' :: ("function() ".data ++ q.data) := by
    rw [String.data_append]
    rfl
  have e1 : "return ".data = 'r' :: "eturn ".data := rfl
  rw [e1, e2] at h
  exact absurd (List.cons_prefix_cons.mp h).1 (by decide)

/-- Claim C1: for every execution unit with at least two fragments having
argument counts `n1, …, nk`, the script synthesized by `gen_script` is exactly
the specified joined form, in which the local binding for the `j`-th argument
name of fragment `i` references flattened 1-based position
`n1+…+n(i-1) + j` (`bindStmt` at `sumBefore infos i + (j+1)` inside
`joinedSpec`), and the flattened argument list built by `apply` at invocation
has length `n1+…+nk` in the same fragment-join order. -/
theorem gen_script_offset_correctness (s : SVal α) (h2 : 2 ≤ (infoList s).length)
    (hwf : s.wf = true) :
    gen_script (infoList s) = some (joinedSpec (infoList s)) ∧
    (applyList s).length = ((infoList s).map (fun f => f.args.length)).sum :=
  ⟨gen_script_joined (infoList s) h2, applyList_length_eq s hwf⟩

/-- Witness: the offset-correctness theorem instantiated on the sample
two-fragment unit. -/
theorem gen_script_offset_correctness_witness :
    (2 ≤ (infoList sampleUnit).length ∧ sampleUnit.wf = true) ∧
    (gen_script (infoList sampleUnit) = some (joinedSpec (infoList sampleUnit)) ∧
      (applyList sampleUnit).length =
        ((infoList sampleUnit).map (fun f => f.args.length)).sum) :=
  ⟨⟨by decide, by decide⟩, gen_script_offset_correctness sampleUnit (by decide) (by decide)⟩

/-- Claim C2: for every fragment sequence of length at least two, the
synthesized script is the concatenation of exactly the wrapped scopes
`fragPiece infos 0, …, fragPiece infos (k-1)`, and of those wrapped scopes
exactly the last is the return-directive-prefixed scope (and starts with
`return `), while every earlier one is exactly the unprefixed scope (and does
not start with `return `): its value is discarded. -/
theorem gen_script_return_on_last_only (infos : List Info) (h : 2 ≤ infos.length) :
    gen_script infos =
      some (concatAll ((List.range infos.length).map (fragPiece infos))) ∧
    (∀ i f, infos[i]? = some f → i ≠ infos.length - 1 →
      fragPiece infos i =
        "(function() " ++ fragInit infos i ++ " " ++ f.body ++ " end)();\n" ∧
      ¬ ("return ".data <+: (fragPiece infos i).data)) ∧
    (∀ f, infos[infos.length - 1]? = some f →
      fragPiece infos (infos.length - 1) = "return " ++
        ("(function() " ++ fragInit infos (infos.length - 1) ++ " " ++ f.body ++
          " end)();\n") ∧
      "return ".data <+: (fragPiece infos (infos.length - 1)).data) := by
  refine ⟨?_, ?_, ?_⟩
  · rw [gen_script_joined infos h]
    rfl
  · intro i f hf hne
    have hpiece : fragPiece infos i =
        "(function() " ++ fragInit infos i ++ " " ++ f.body ++ " end)();\n" := by
      rw [fragPiece_eq infos i f hf, if_neg hne]
      simp only [String.empty_append]
    refine ⟨hpiece, ?_⟩
    rw [hpiece]
    simp only [String.append_assoc]
    exact not_return_of_paren _
  · intro f hf
    have hpiece : fragPiece infos (infos.length - 1) = "return " ++
        ("(function() " ++ fragInit infos (infos.length - 1) ++ " " ++ f.body ++
          " end)();\n") := by
      rw [fragPiece_eq infos (infos.length - 1) f hf, if_pos rfl]
      simp only [String.append_assoc]
    refine ⟨hpiece, ?_⟩
    rw [hpiece, String.data_append]
    exact List.prefix_append _ _

/-- Witness: the return-on-last-only theorem instantiated on the concrete
two-fragment list `[infoA, infoB]`. -/
theorem gen_script_return_on_last_only_witness :
    (2 ≤ ([infoA, infoB] : List Info).length) ∧
    (gen_script [infoA, infoB] = some (concatAll
        ((List.range ([infoA, infoB] : List Info).length).map (fragPiece [infoA, infoB]))) ∧
      (∀ i f, ([infoA, infoB] : List Info)[i]? = some f →
        i ≠ ([infoA, infoB] : List Info).length - 1 →
        fragPiece [infoA, infoB] i =
          "(function() " ++ fragInit [infoA, infoB] i ++ " " ++ f.body ++ " end)();\n" ∧
        ¬ ("return ".data <+: (fragPiece [infoA, infoB] i).data)) ∧
      (∀ f, ([infoA, infoB] : List Info)[([infoA, infoB] : List Info).length - 1]? = some f →
        fragPiece [infoA, infoB] (([infoA, infoB] : List Info).length - 1) = "return " ++
          ("(function() " ++
            fragInit [infoA, infoB] (([infoA, infoB] : List Info).length - 1) ++ " " ++
            f.body ++ " end)();\n") ∧
        "return ".data <+:
          (fragPiece [infoA, infoB] (([infoA, infoB] : List Info).length - 1)).data)) :=
  ⟨by decide, gen_script_return_on_last_only [infoA, infoB] (by decide)⟩

/-- Claim C3: for every fragment `F`, `gen_script` on the one-element sequence
`[F]` yields exactly `F`'s full script text, verbatim, with no sandbox
wrapping and no offset bindings added. -/
theorem gen_script_single_fragment_identity (f : Info) : gen_script [f] = some f.script := rfl

/-- Claim C4 (refuted — code bug): the identity unit `()` collects the empty
`Info` list, yet `gen_script` is not panic-free on it: with length 0 the code
evaluates `info.len() - 1`, a usize subtraction that underflows (a panic in
debug builds, modelled as `none`), so `gen_script` does not return a script
for every input list length. -/
theorem gen_script_empty_list_panics :
    infoList (SVal.unit : SVal Nat) = [] ∧ gen_script ([] : List Info) = none :=
  ⟨rfl, rfl⟩

/-- Claim C5: join is associative — both associations collect identical
fragment sequences and identical flattened argument sequences, and therefore
synthesize identical scripts with identical flattened-offset assignments. -/
theorem join_associative (a b c : SVal α) :
    infoList (SVal.join (SVal.join a b) c) = infoList (SVal.join a (SVal.join b c)) ∧
    applyList (SVal.join (SVal.join a b) c) = applyList (SVal.join a (SVal.join b c)) ∧
    gen_script (infoList (SVal.join (SVal.join a b) c)) =
      gen_script (infoList (SVal.join a (SVal.join b c))) := by
  have hinfo : infoList (SVal.join (SVal.join a b) c) =
      infoList (SVal.join a (SVal.join b c)) := by
    rw [infoList_join_eq, infoList_join_eq, infoList_join_eq, infoList_join_eq,
      List.append_assoc]
  have happly : applyList (SVal.join (SVal.join a b) c) =
      applyList (SVal.join a (SVal.join b c)) := by
    rw [applyList_join_eq, applyList_join_eq, applyList_join_eq, applyList_join_eq,
      List.append_assoc]
  exact ⟨hinfo, happly, by rw [hinfo]⟩

/-- Claim C6: joining two execution units concatenates their fragment
sequences and their flattened argument sequences in order, and the empty unit
`()` is a two-sided identity for both sequences. -/
theorem join_concat_unit_identity (a b u : SVal α) :
    infoList (SVal.join a b) = infoList a ++ infoList b ∧
    applyList (SVal.join a b) = applyList a ++ applyList b ∧
    infoList (SVal.join SVal.unit u) = infoList u ∧
    applyList (SVal.join SVal.unit u) = applyList u ∧
    infoList (SVal.join u SVal.unit) = infoList u ∧
    applyList (SVal.join u SVal.unit) = applyList u := by
  refine ⟨infoList_join_eq a b, applyList_join_eq a b, ?_, ?_, ?_, ?_⟩
  · rw [infoList_join_eq]
    rfl
  · rw [applyList_join_eq]
    rfl
  · rw [infoList_join_eq]
    simp [infoList, SVal.infos]
  · rw [applyList_join_eq]
    simp [applyList, SVal.apply]

/-- Claim C7: the blocking `invoke` and the suspending `invoke_async` perform
identical synthesis and flattening — for the same execution unit both hand
the same collected fragment sequence, the same synthesized script and the
same flattened argument list to the transport. -/
theorem invoke_and_invoke_async_agree (s : SVal α) : invokePrep s = invokeAsyncPrep s := rfl

/-- Claim C8: for every fragment sequence of length at least two, each
fragment's emitted local bindings and body are wrapped inside an
immediately-evaluated anonymous function scope, and the wrapped scopes are
concatenated in fragment order, each terminated by `();\n`. -/
theorem gen_script_sandbox_wrapping (infos : List Info) (h : 2 ≤ infos.length) :
    ∃ pieces : List String,
      gen_script infos = some (concatAll pieces) ∧
      pieces.length = infos.length ∧
      ∀ i f, infos[i]? = some f →
        pieces[i]? = some ((if i = infos.length - 1 then "return " else "") ++
          "(function() " ++ fragInit infos i ++ " " ++ f.body ++ " end)();\n") := by
  refine ⟨(List.range infos.length).map (fragPiece infos), ?_, by simp, ?_⟩
  · rw [gen_script_joined infos h]
    rfl
  · intro i f hf
    have hi : i < infos.length := by
      by_contra hc
      rw [List.getElem?_eq_none (Nat.le_of_not_lt hc)] at hf
      exact Option.noConfusion hf
    simp [List.getElem?_map, List.getElem?_range hi, fragPiece_eq infos i f hf]

/-- Witness: the sandbox-wrapping theorem instantiated on the concrete
two-fragment list `[infoA, infoB]`. -/
theorem gen_script_sandbox_wrapping_witness :
    (2 ≤ ([infoA, infoB] : List Info).length) ∧
    (∃ pieces : List String,
      gen_script [infoA, infoB] = some (concatAll pieces) ∧
      pieces.length = ([infoA, infoB] : List Info).length ∧
      ∀ i f, ([infoA, infoB] : List Info)[i]? = some f →
        pieces[i]? = some ((if i = ([infoA, infoB] : List Info).length - 1
            then "return " else "") ++
          "(function() " ++ fragInit [infoA, infoB] i ++ " " ++ f.body ++ " end)();\n")) :=
  ⟨by decide, gen_script_sandbox_wrapping [infoA, infoB] (by decide)⟩

/-- Claim C9: duplicating a partially bound `Chain0` (its `Clone` is a plain
structural copy) and completing each copy with different values yields
identical fragment sequences — hence textually identical synthesized
scripts — while the flattened argument lists share the inner arguments and
the values bound before duplication (`a1`, `a3`) at the same positions and
differ exactly at the two positions bound afterwards (`a2`, `a4`). -/
theorem clone_rebind_independence (c : Chain0 α) (x y x2 y2 : α) :
    infoList ((c.a x).b y) = infoList ((c.a x2).b y2) ∧
    gen_script (infoList ((c.a x).b y)) = gen_script (infoList ((c.a x2).b y2)) ∧
    applyList ((c.a x).b y) = applyList c.inner ++ [c.a1, x, c.a3, y] ∧
    applyList ((c.a x2).b y2) = applyList c.inner ++ [c.a1, x2, c.a3, y2] :=
  ⟨rfl, rfl, applyList_chain2_eq c.inner c.info c.a1 c.a3 x y,
    applyList_chain2_eq c.inner c.info c.a1 c.a3 x2 y2⟩

/-- Claim C10: `apply` and `info` traverse the composite in the same
inner-first order — the flattened argument list is exactly the in-order
flattening of the per-fragment argument groups, and those groups align
fragment-for-fragment, in count and order, with the collected `Info`
sequence. -/
theorem apply_info_alignment (s : SVal α) (hwf : s.wf = true) :
    applyList s = (argGroups s).flatten ∧
    (argGroups s).length = (infoList s).length ∧
    List.Forall₂ (fun g f => g.length = f.args.length) (argGroups s) (infoList s) :=
  ⟨applyList_flatten_groups s, (groups_align s hwf).length_eq, groups_align s hwf⟩

/-- Witness: the alignment theorem instantiated on the sample two-fragment
unit. -/
theorem apply_info_alignment_witness :
    (sampleUnit.wf = true) ∧
    (applyList sampleUnit = (argGroups sampleUnit).flatten ∧
      (argGroups sampleUnit).length = (infoList sampleUnit).length ∧
      List.Forall₂ (fun g f => g.length = f.args.length) (argGroups sampleUnit)
        (infoList sampleUnit)) :=
  ⟨by decide, apply_info_alignment sampleUnit (by decide)⟩

end RedisLua
